import Mathlib

/-!
# Verification of the SSCHA minimizer (Modules/SchaMinimizer.py)

A shallow embedding of the SSCHA free-energy minimizer, with proofs of the
specification claims about it.

Conventions of the embedding:
* Machine floating-point values are modelled as exact numbers: `ℚ` where the
  code only compares, adds and multiplies scalars (the run-loop bookkeeping),
  and `ℝ`/`ℂ` where the code takes square roots and works with complex
  Hermitian matrices (`PerformRootStep`, `GetStructPrecond`).
* `np.linalg.eigh` is an external collaborator (LAPACK).  Its output is an
  explicit argument (`EigData`); theorems that depend on it assume its
  contract (unitary eigenvectors reconstituting the matrix).
* Python exceptions (`raise ValueError`) are modelled with `Except String`.
* A python array `ndarray(NQ, 3nat, 3nat)` becomes a `List` of square
  complex matrices; `NQ` is the list length.
-/

namespace Sscha

/-- A square complex matrix block of a dynamical matrix at one q point
(`3nat x 3nat` in the source). -/
abbrev DynMat (n : ℕ) := Matrix (Fin n) (Fin n) ℂ

/-- The output of `np.linalg.eigh` on one q block: the eigenvalues
(real, ascending in numpy; the order is irrelevant here) and the matrix
whose columns are the eigenvectors. -/
structure EigData (n : ℕ) where
  vals : Fin n → ℝ
  vecs : DynMat n

/-- The contract of `np.linalg.eigh d`: the eigenvector matrix is unitary and
reconstitutes `d` as `V * diag(vals) * Vᴴ`. -/
def EighContract {n : ℕ} (e : EigData n) (d : DynMat n) : Prop :=
  Matrix.conjTranspose e.vecs * e.vecs = 1 ∧
  d = e.vecs * Matrix.diagonal (fun a => ((e.vals a : ℝ) : ℂ)) * Matrix.conjTranspose e.vecs

/-- `np.einsum("a, ba, ca", np.sqrt(w), np.conj(V), V)` from `PerformRootStep`:
entry `(b, c)` is `Σ_a sqrt(w a) * conj (V b a) * V c a`. -/
noncomputable def sqrtMat {n : ℕ} (w : Fin n → ℝ) (V : DynMat n) : DynMat n :=
  Matrix.of fun b c => ∑ a, ((Real.sqrt (w a) : ℝ) : ℂ) * (starRingEnd ℂ) (V b a) * V c a

/-- The body of the first `for iq in range(nq)` loop of `PerformRootStep`
(the non-"normal" branch): produce the root-representation matrix and the
tangent-space gradient for one q point.  At the zone center (`iq == 0`)
negative eigenvalues are clamped to zero first
(`eigvals[eigvals < 0] = 0.`). -/
noncomputable def rootStepQ {n : ℕ} (rep : String) (iq : ℕ) (g : DynMat n)
    (e : EigData n) : DynMat n × DynMat n :=
  let vals := if iq = 0 then (fun a => max (e.vals a) 0) else e.vals
  let M := sqrtMat vals e.vecs
  let G := M * g + g * M
  if rep = "root4" then
    let M4 := sqrtMat (fun a => Real.sqrt (vals a)) e.vecs
    (M4, M4 * G + G * M4)
  else
    (M, G)

/-- The first loop of `PerformRootStep` over all q points, carrying the loop
index `iq` (the eigendecomposition of `dyn_q[iq]` is `eig iq`). -/
noncomputable def rootTransformList {n : ℕ} (rep : String) (eig : ℕ → EigData n) :
    ℕ → List (DynMat n × DynMat n) → List (DynMat n × DynMat n)
  | _, [] => []
  | iq, (_, g) :: rest =>
      rootStepQ rep iq g (eig iq) :: rootTransformList rep eig (iq + 1) rest

/-- The final squaring loop of `PerformRootStep`: square once to undo the
square root, square once more for `root4`. -/
noncomputable def squareRep {n : ℕ} (rep : String) (d : DynMat n) : DynMat n :=
  let d2 := d * d
  if rep = "root4" then d2 * d2 else d2

/-- `root_representation = "sqrt" if root_representation == "root2"`: root2 is
accepted as an alias of sqrt. -/
def canonicalRep (r : String) : String := if r = "root2" then "sqrt" else r

/-- `PerformRootStep(dyn_q, grad_q, step_size, root_representation,
minimization_algorithm)` (SchaMinimizer.py lines 1096-1199).  The
eigendecompositions produced by `np.linalg.eigh(dyn_q[iq])` are supplied by
the collaborator oracle `eig`. -/
noncomputable def PerformRootStep {n : ℕ} (dyn_q grad_q : List (DynMat n))
    (eig : ℕ → EigData n) (step_size : ℝ)
    (root_representation minimization_algorithm : String) :
    Except String (List (DynMat n)) :=
  if root_representation ∈ ["normal", "root4", "sqrt", "root2"] then
    if dyn_q.length = grad_q.length then
      let rep := canonicalRep root_representation
      let pairs :=
        if rep ≠ "normal" then rootTransformList rep eig 0 (dyn_q.zip grad_q)
        else dyn_q.zip grad_q
      if minimization_algorithm = "sdes" then
        let stepped := pairs.map fun p => p.1 - ((step_size : ℝ) : ℂ) • p.2
        Except.ok (if rep ≠ "normal" then stepped.map (squareRep rep) else stepped)
      else
        Except.error "Error, the given minimization_algorithm is not implemented."
    else
      Except.error "Error, the number of q point of the dynamical matrix and gradient does not match!"
  else
    Except.error "Error, root_representation must be one of normal, root4, sqrt, root2."

lemma map_zip_eq_zipWith {α β γ : Type} (f : α → β → γ) :
    ∀ (l₁ : List α) (l₂ : List β),
      (l₁.zip l₂).map (fun p => f p.1 p.2) = List.zipWith f l₁ l₂
  | [], _ => rfl
  | _ :: _, [] => rfl
  | a :: l₁, b :: l₂ => by
      simp only [List.zip_cons_cons, List.map_cons, List.zipWith_cons_cons]
      exact congrArg _ (map_zip_eq_zipWith f l₁ l₂)

/-- **C2.** For dynamical-matrix and gradient arrays with the same number of
q points, `PerformRootStep` with `root_representation = "normal"` and
`minimization_algorithm = "sdes"` returns exactly `dyn_q - step_size * grad_q`,
block by block: no diagonalization, clamping or nonlinear map is applied
(the result does not depend on the eigendecomposition oracle at all). -/
theorem performRootStep_normal_is_linear {n : ℕ} (dyn_q grad_q : List (DynMat n))
    (eig : ℕ → EigData n) (step_size : ℝ)
    (hlen : dyn_q.length = grad_q.length) :
    PerformRootStep dyn_q grad_q eig step_size "normal" "sdes" =
      Except.ok (List.zipWith (fun d g => d - ((step_size : ℝ) : ℂ) • g) dyn_q grad_q) := by
  unfold PerformRootStep
  rw [if_pos (by decide), if_pos hlen]
  simp only [canonicalRep, String.reduceEq, reduceIte, ne_eq, not_true_eq_false]
  exact congrArg Except.ok
    (map_zip_eq_zipWith (fun d g => d - ((step_size : ℝ) : ℂ) • g) dyn_q grad_q)

/-- Witness for C2 at a concrete input: one q point, 1x1 blocks. -/
theorem performRootStep_normal_is_linear_witness :
    ([Matrix.of fun _ _ => (3 : ℂ)] : List (DynMat 1)).length =
        ([Matrix.of fun _ _ => (5 : ℂ)] : List (DynMat 1)).length ∧
      @PerformRootStep 1 [Matrix.of fun _ _ => (3 : ℂ)] [Matrix.of fun _ _ => (5 : ℂ)]
        (fun _ => ⟨fun _ => 0, 1⟩) 2 "normal" "sdes" =
      Except.ok (List.zipWith (fun d g => d - ((2 : ℝ) : ℂ) • g)
        [Matrix.of fun _ _ => (3 : ℂ)] [Matrix.of fun _ _ => (5 : ℂ)]) :=
  ⟨rfl, performRootStep_normal_is_linear _ _ _ _ rfl⟩

/-- **C8.** `PerformRootStep` produces a result exactly when the
representation tag is one of `normal`, `sqrt`, `root2`, `root4`, the q-point
counts of the matrix and the gradient agree, and the algorithm tag is
`"sdes"`; in every other case (in particular for any unimplemented algorithm
selection) it fails with an explicit error instead of falling back to
steepest descent. -/
theorem performRootStep_error_conditions {n : ℕ} (dyn_q grad_q : List (DynMat n))
    (eig : ℕ → EigData n) (step_size : ℝ) (rep alg : String) :
    (∃ out, PerformRootStep dyn_q grad_q eig step_size rep alg = Except.ok out) ↔
      (rep ∈ ["normal", "root4", "sqrt", "root2"] ∧
        dyn_q.length = grad_q.length ∧ alg = "sdes") := by
  constructor
  · rintro ⟨out, hout⟩
    unfold PerformRootStep at hout
    by_cases h1 : rep ∈ ["normal", "root4", "sqrt", "root2"]
    · rw [if_pos h1] at hout
      by_cases h2 : dyn_q.length = grad_q.length
      · rw [if_pos h2] at hout
        by_cases h3 : alg = "sdes"
        · exact ⟨h1, h2, h3⟩
        · rw [if_neg h3] at hout
          exact absurd hout (by simp)
      · rw [if_neg h2] at hout
        exact absurd hout (by simp)
    · rw [if_neg h1] at hout
      exact absurd hout (by simp)
  · rintro ⟨h1, h2, h3⟩
    unfold PerformRootStep
    rw [if_pos h1, if_pos h2, if_pos h3]
    exact ⟨_, rfl⟩

/-! ## The root representations at step size zero (claim C3)

`np.linalg.eigh` returns `(w, V)` with `d = V * diag(w) * Vᴴ`.  The einsum
`("a, ba, ca", sqrt(w), conj(V), V)` however reconstitutes
`conj(V) * diag(sqrt w) * Vᵀ`, the entrywise *conjugate* of the matrix square
root of `d`.  Squaring it back therefore yields the entrywise conjugate of
`d`, not `d` itself. -/

lemma conjTranspose_map_star {n : ℕ} (V : DynMat n) :
    (Matrix.conjTranspose V).map (starRingEnd ℂ) = Matrix.transpose V := by
  ext b c
  simp [Matrix.conjTranspose_apply, Matrix.map_apply, Matrix.transpose_apply]

lemma sqrtMat_matrix_form {n : ℕ} (w : Fin n → ℝ) (V : DynMat n) :
    sqrtMat w V =
      V.map (starRingEnd ℂ) * Matrix.diagonal (fun a => ((Real.sqrt (w a) : ℝ) : ℂ)) *
        Matrix.transpose V := by
  rw [mul_assoc]
  ext b c
  rw [Matrix.mul_apply]
  simp only [sqrtMat, Matrix.of_apply, Matrix.map_apply, Matrix.diagonal_mul,
    Matrix.transpose_apply]
  exact Finset.sum_congr rfl fun a _ => by ring

lemma transpose_mul_map_star {n : ℕ} (V : DynMat n)
    (h : Matrix.conjTranspose V * V = 1) :
    Matrix.transpose V * V.map (starRingEnd ℂ) = 1 := by
  have h2 := congrArg (fun M => Matrix.map M (starRingEnd ℂ)) h
  simpa [Matrix.map_mul, conjTranspose_map_star,
    Matrix.map_one (starRingEnd ℂ) (map_zero _) (map_one _)] using h2

lemma conj_form_mul {n : ℕ} (V : DynMat n) (h : Matrix.conjTranspose V * V = 1)
    (w w' : Fin n → ℂ) :
    (V.map (starRingEnd ℂ) * Matrix.diagonal w * Matrix.transpose V) *
      (V.map (starRingEnd ℂ) * Matrix.diagonal w' * Matrix.transpose V) =
      V.map (starRingEnd ℂ) * Matrix.diagonal (fun a => w a * w' a) * Matrix.transpose V := by
  have h2 := transpose_mul_map_star V h
  calc (V.map (starRingEnd ℂ) * Matrix.diagonal w * Matrix.transpose V) *
        (V.map (starRingEnd ℂ) * Matrix.diagonal w' * Matrix.transpose V)
      = V.map (starRingEnd ℂ) * Matrix.diagonal w *
          ((Matrix.transpose V * V.map (starRingEnd ℂ)) *
            (Matrix.diagonal w' * Matrix.transpose V)) := by
        simp only [mul_assoc]
    _ = V.map (starRingEnd ℂ) * (Matrix.diagonal w * Matrix.diagonal w') *
          Matrix.transpose V := by
        rw [h2, one_mul]
        simp only [mul_assoc]
    _ = V.map (starRingEnd ℂ) * Matrix.diagonal (fun a => w a * w' a) *
          Matrix.transpose V := by
        rw [Matrix.diagonal_mul_diagonal]

/-- The entrywise conjugate of a matrix satisfying the `eigh` contract, in the
`conj(V) * diag * Vᵀ` form produced by the einsum of `PerformRootStep`. -/
lemma map_star_of_contract {n : ℕ} (e : EigData n) (d : DynMat n)
    (hc : EighContract e d) :
    d.map (starRingEnd ℂ) =
      e.vecs.map (starRingEnd ℂ) * Matrix.diagonal (fun a => ((e.vals a : ℝ) : ℂ)) *
        Matrix.transpose e.vecs := by
  rw [hc.2]
  rw [Matrix.map_mul, Matrix.map_mul, conjTranspose_map_star,
    Matrix.diagonal_map (map_zero _)]
  simp only [Complex.conj_ofReal]

/-- One q point of the sqrt/root4 pipeline at step size zero: squaring the
einsum-reconstructed root matrix gives the entrywise conjugate of the input
block. -/
lemma squareRep_rootStepQ_eq_conj {n : ℕ} (rep : String)
    (hrep : rep = "sqrt" ∨ rep = "root4") (iq : ℕ) (g : DynMat n)
    (e : EigData n) (d : DynMat n) (hc : EighContract e d)
    (hw : ∀ a, 0 ≤ e.vals a) :
    squareRep rep (rootStepQ rep iq g e).1 = d.map (starRingEnd ℂ) := by
  have hclamp : (if iq = 0 then (fun a => max (e.vals a) 0) else e.vals) = e.vals := by
    split
    · funext a
      exact max_eq_left (hw a)
    · rfl
  have hform := map_star_of_contract e d hc
  have hd1 : (fun a => ((Real.sqrt (e.vals a) : ℝ) : ℂ) * ((Real.sqrt (e.vals a) : ℝ) : ℂ)) =
      fun a => ((e.vals a : ℝ) : ℂ) := by
    funext a
    rw [← Complex.ofReal_mul, Real.mul_self_sqrt (hw a)]
  have hd2 : (fun a => ((Real.sqrt (Real.sqrt (e.vals a)) : ℝ) : ℂ) *
        ((Real.sqrt (Real.sqrt (e.vals a)) : ℝ) : ℂ)) =
      fun a => ((Real.sqrt (e.vals a) : ℝ) : ℂ) := by
    funext a
    rw [← Complex.ofReal_mul, Real.mul_self_sqrt (Real.sqrt_nonneg _)]
  rcases hrep with hrep | hrep
  · subst hrep
    simp only [rootStepQ, hclamp, String.reduceEq, reduceIte, squareRep]
    rw [sqrtMat_matrix_form, conj_form_mul _ hc.1, hd1, hform]
  · subst hrep
    simp only [rootStepQ, hclamp, String.reduceEq, reduceIte, squareRep]
    rw [sqrtMat_matrix_form, conj_form_mul _ hc.1, hd2, conj_form_mul _ hc.1, hd1, hform]

/-- The whole of `PerformRootStep` at step size zero for a root
representation, stated generally: under the `eigh` contract with nonnegative
eigenvalues, the output is the entrywise complex conjugate of the input,
block by block. -/
lemma performRootStep_step_zero_eq_conj {n : ℕ} (rep : String)
    (hrep : rep = "sqrt" ∨ rep = "root4") (eig : ℕ → EigData n) :
    ∀ (i : ℕ) (dyn_q grad_q : List (DynMat n)), dyn_q.length = grad_q.length →
      (∀ (k : ℕ) (h : k < dyn_q.length), EighContract (eig (i + k)) (dyn_q.get ⟨k, h⟩)) →
      (∀ k a, 0 ≤ (eig k).vals a) →
      ((rootTransformList rep eig i (dyn_q.zip grad_q)).map
          (fun p => p.1 - ((0 : ℝ) : ℂ) • p.2)).map (squareRep rep) =
        dyn_q.map (fun d => d.map (starRingEnd ℂ))
  | _, [], _, _, _, _ => by simp [rootTransformList]
  | _, d :: dyn_q, [], hlen, _, _ => by simp at hlen
  | i, d :: dyn_q, g :: grad_q, hlen, hcontract, hw => by
    have hzip : (d :: dyn_q).zip (g :: grad_q) = (d, g) :: dyn_q.zip grad_q := rfl
    rw [hzip]
    simp only [rootTransformList, List.map_cons]
    refine congrArg₂ List.cons ?_ ?_
    · show squareRep rep
          ((rootStepQ rep i g (eig i)).1 - ((0 : ℝ) : ℂ) • (rootStepQ rep i g (eig i)).2) =
        d.map (starRingEnd ℂ)
      rw [Complex.ofReal_zero, zero_smul, sub_zero]
      exact squareRep_rootStepQ_eq_conj rep hrep i g (eig i) d
        (by simpa using hcontract 0 (Nat.succ_pos _)) (hw i)
    · refine performRootStep_step_zero_eq_conj rep hrep eig (i + 1) dyn_q grad_q
        (by simpa using hlen) (fun k h => ?_) hw
      have := hcontract (k + 1) (Nat.succ_lt_succ h)
      rwa [show i + (k + 1) = i + 1 + k by omega] at this

/-- **C3 (amended).** For `root_representation` in `{sqrt, root4}` and step
size `0`, `PerformRootStep` returns the entrywise complex *conjugate* of the
input array (for Hermitian blocks: the transpose), for every input whose
eigendecompositions have no negative eigenvalue; so the input is returned
unchanged exactly when every block is real, but not in general. -/
theorem performRootStep_root_step_zero_conjugates {n : ℕ}
    (dyn_q grad_q : List (DynMat n)) (eig : ℕ → EigData n) (rep : String)
    (hrep : rep = "sqrt" ∨ rep = "root4")
    (hlen : dyn_q.length = grad_q.length)
    (hcontract : ∀ (k : ℕ) (h : k < dyn_q.length), EighContract (eig k) (dyn_q.get ⟨k, h⟩))
    (hw : ∀ k a, 0 ≤ (eig k).vals a) :
    PerformRootStep dyn_q grad_q eig 0 rep "sdes" =
      Except.ok (dyn_q.map (fun d => d.map (starRingEnd ℂ))) := by
  have hne2 : rep ≠ "root2" := by rcases hrep with h | h <;> subst h <;> decide
  have hnn : rep ≠ "normal" := by rcases hrep with h | h <;> subst h <;> decide
  have hmem : rep ∈ ["normal", "root4", "sqrt", "root2"] := by
    rcases hrep with h | h <;> subst h <;> decide
  unfold PerformRootStep
  rw [if_pos hmem, if_pos hlen]
  simp only [canonicalRep, if_neg hne2, ne_eq, hnn, not_false_eq_true, reduceIte]
  exact congrArg Except.ok
    (performRootStep_step_zero_eq_conj rep hrep eig 0 dyn_q grad_q hlen
      (by simpa using hcontract) hw)

/-- Witness for the amended C3: a real 1x1 block, where conjugation is the
identity and the input is recovered. -/
theorem performRootStep_root_step_zero_conjugates_witness :
    (("sqrt" : String) = "sqrt" ∨ ("sqrt" : String) = "root4") ∧
      @PerformRootStep 1 [Matrix.of fun _ _ => (4 : ℂ)] [0]
          (fun _ => ⟨fun _ => 4, 1⟩) 0 "sqrt" "sdes" =
        Except.ok (([Matrix.of fun _ _ => (4 : ℂ)] : List (DynMat 1)).map
          (fun d => d.map (starRingEnd ℂ))) := by
  refine ⟨Or.inl rfl, performRootStep_root_step_zero_conjugates _ _ _ _ (Or.inl rfl) rfl ?_ ?_⟩
  · intro k h
    have hk : k = 0 := by
      simpa using Nat.lt_one_iff.mp (by simpa using h)
    subst hk
    constructor
    · simp
    · ext i j
      fin_cases i
      fin_cases j
      simp [Matrix.diagonal]
  · intro k a
    norm_num

/-- The concrete Hermitian matrix `V0 * diag(1, 4) * V0ᴴ` used to refute C3
as stated:  its off-diagonal entries are genuinely complex. -/
noncomputable def D0 : DynMat 2 :=
  !![((73 / 25 : ℝ) : ℂ), ((36 / 25 : ℝ) : ℂ) * Complex.I;
     -(((36 / 25 : ℝ) : ℂ) * Complex.I), ((52 / 25 : ℝ) : ℂ)]

/-- A unitary eigenvector matrix for `D0` with rational-valued entries. -/
noncomputable def V0 : DynMat 2 :=
  !![((3 / 5 : ℝ) : ℂ), ((4 / 5 : ℝ) : ℂ) * Complex.I;
     ((4 / 5 : ℝ) : ℂ) * Complex.I, ((3 / 5 : ℝ) : ℂ)]

/-- The eigenvalues of `D0` (both nonnegative). -/
noncomputable def e0 : EigData 2 := ⟨![1, 4], V0⟩

lemma V0_conjTranspose :
    Matrix.conjTranspose V0 =
      !![((3 / 5 : ℝ) : ℂ), -(((4 / 5 : ℝ) : ℂ) * Complex.I);
         -(((4 / 5 : ℝ) : ℂ) * Complex.I), ((3 / 5 : ℝ) : ℂ)] := by
  ext i j
  fin_cases i <;> fin_cases j <;>
    · simp only [V0, Matrix.conjTranspose_apply, Complex.star_def, map_mul,
        Complex.conj_ofReal, Complex.conj_I, Fin.zero_eta, Fin.mk_one, Matrix.of_apply, Matrix.cons_val', Matrix.cons_val_zero,
        Matrix.cons_val_one, Matrix.head_cons, Matrix.empty_val',
        Matrix.cons_val_fin_one, Matrix.head_fin_const]
      all_goals ring

lemma V0_unitary : Matrix.conjTranspose V0 * V0 = 1 := by
  rw [V0_conjTranspose, V0, Matrix.mul_fin_two, Matrix.one_fin_two]
  ext i j
  fin_cases i <;> fin_cases j <;>
    · simp only [Fin.zero_eta, Fin.mk_one, Matrix.of_apply, Matrix.cons_val', Matrix.cons_val_zero, Matrix.cons_val_one,
        Matrix.head_cons, Matrix.empty_val', Matrix.cons_val_fin_one, Matrix.head_fin_const]
      apply Complex.ext <;>
        · simp only [Complex.add_re, Complex.add_im, Complex.mul_re, Complex.mul_im,
            Complex.neg_re, Complex.neg_im, Complex.ofReal_re, Complex.ofReal_im,
            Complex.I_re, Complex.I_im, Complex.one_re, Complex.one_im,
            Complex.zero_re, Complex.zero_im]
          norm_num

lemma diag0_fin_two :
    Matrix.diagonal (fun a => ((e0.vals a : ℝ) : ℂ)) = !![(1 : ℂ), 0; 0, 4] := by
  ext i j
  fin_cases i <;> fin_cases j
  · rw [Matrix.diagonal_apply_eq]
    simp [e0]
  · rw [Matrix.diagonal_apply_ne _ (by decide)]
    simp
  · rw [Matrix.diagonal_apply_ne _ (by decide)]
    simp
  · rw [Matrix.diagonal_apply_eq]
    simp [e0]

lemma D0_contract : EighContract e0 D0 := by
  refine ⟨V0_unitary, ?_⟩
  show D0 = V0 * Matrix.diagonal (fun a => ((e0.vals a : ℝ) : ℂ)) * Matrix.conjTranspose V0
  rw [diag0_fin_two, V0_conjTranspose, V0, D0, Matrix.mul_fin_two, Matrix.mul_fin_two]
  ext i j
  fin_cases i <;> fin_cases j <;>
    · simp only [Fin.zero_eta, Fin.mk_one, Matrix.of_apply, Matrix.cons_val', Matrix.cons_val_zero, Matrix.cons_val_one,
        Matrix.head_cons, Matrix.empty_val', Matrix.cons_val_fin_one, Matrix.head_fin_const]
      apply Complex.ext <;>
        · simp only [Complex.add_re, Complex.add_im, Complex.mul_re, Complex.mul_im,
            Complex.neg_re, Complex.neg_im, Complex.ofReal_re, Complex.ofReal_im,
            Complex.I_re, Complex.I_im, Complex.one_re, Complex.one_im,
            Complex.zero_re, Complex.zero_im, Complex.re_ofNat, Complex.im_ofNat]
          norm_num

lemma D0_hermitian : Matrix.conjTranspose D0 = D0 := by
  ext i j
  fin_cases i <;> fin_cases j <;>
    · simp only [D0, Matrix.conjTranspose_apply, Complex.star_def, map_mul, map_neg,
        Complex.conj_ofReal, Complex.conj_I, Fin.zero_eta, Fin.mk_one, Matrix.of_apply, Matrix.cons_val', Matrix.cons_val_zero,
        Matrix.cons_val_one, Matrix.head_cons, Matrix.empty_val',
        Matrix.cons_val_fin_one, Matrix.head_fin_const]
      all_goals ring

/-- **C3 (counterexample).** `D0` is Hermitian, its zone-center eigenvalues
`(1, 4)` are nonnegative, and the `eigh` contract holds for the supplied
eigendecomposition — yet `PerformRootStep` with representation `"sqrt"` and
step size `0` does *not* return the input: it returns the entrywise
conjugate, whose `(0, 1)` entry is `-36/25 i` instead of `36/25 i`. -/
theorem performRootStep_sqrt_step_zero_not_identity :
    Matrix.conjTranspose D0 = D0 ∧ EighContract e0 D0 ∧ (∀ a, 0 ≤ e0.vals a) ∧
      @PerformRootStep 2 [D0] [0] (fun _ => e0) 0 "sqrt" "sdes" ≠ Except.ok [D0] := by
  refine ⟨D0_hermitian, D0_contract, ?_, ?_⟩
  · intro a
    fin_cases a <;> norm_num [e0]
  · have hres := performRootStep_step_zero_eq_conj "sqrt" (Or.inl rfl) (fun _ => e0) 0
      [D0] [0] rfl
      (fun k h => by
        have hk : k = 0 := by simpa using Nat.lt_one_iff.mp (by simpa using h)
        subst hk
        exact D0_contract)
      (fun k a => by fin_cases a <;> norm_num [e0])
    have hfull : @PerformRootStep 2 [D0] [0] (fun _ => e0) 0 "sqrt" "sdes" =
        Except.ok [D0.map (starRingEnd ℂ)] := by
      unfold PerformRootStep
      rw [if_pos (by decide), if_pos rfl]
      simp only [canonicalRep, String.reduceEq, reduceIte, ne_eq, not_false_eq_true]
      rw [hres]
      simp
    intro habs
    rw [hfull] at habs
    have hlist : D0.map (starRingEnd ℂ) = D0 := by
      have := Except.ok.inj habs
      simpa using this
    have hentry := congrFun (congrFun hlist 0) 1
    have h01 : D0 0 1 = ((36 / 25 : ℝ) : ℂ) * Complex.I := by
      simp only [D0, Fin.zero_eta, Fin.mk_one, Matrix.of_apply, Matrix.cons_val', Matrix.cons_val_zero, Matrix.cons_val_one,
        Matrix.head_cons, Matrix.empty_val', Matrix.cons_val_fin_one, Matrix.head_fin_const]
    rw [Matrix.map_apply, h01, map_mul, Complex.conj_ofReal, Complex.conj_I] at hentry
    have him := congrArg Complex.im hentry
    simp only [Complex.mul_im, Complex.ofReal_re, Complex.ofReal_im, Complex.neg_re,
      Complex.neg_im, Complex.I_re, Complex.I_im] at him
    norm_num at him


/-! ## The run loop state machine (claims C1, C5, C6, C7)

`SSCHA_Minimizer.run` / `check_stop` / `check_imaginary_frequencies`.
The minimizer's scalar bookkeeping (free energies, gradient moduli, Kong-Liu
sizes) is modelled over `ℚ`; the dynamical matrix (which the run loop only
copies, replaces and restores) is an opaque type parameter `D`.  What the
ensemble and symmetry collaborators return during one iteration is collected
in `IterData`; an iteration-indexed oracle `Nat → IterData D` supplies them.

Python's `self.__fe__.append(x)` lists are represented most-recent-first
(`x :: fe`), so python's `self.__fe__[-1]` is `List.headD`; lengths agree
with the python lists. -/

/-- The configuration fields of `SSCHA_Minimizer` read by the run loop and
`check_stop` (`N` is the ensemble's configuration count `self.ensemble.N`). -/
structure Config where
  meaningful_factor : ℚ
  kong_liu_ratio : ℚ
  gradi_op : String
  max_ka : Int
  N : ℚ
deriving DecidableEq

/-- What the collaborators produce during one minimization iteration:
the new dynamical matrix computed by `minimization_step` (via
`PerformRootStep` and the structure step), the gradient moduli appended to
the history, the free energy, the effective sample size, and whether the
updated matrix has an imaginary frequency
(`check_imaginary_frequencies` on it). -/
structure IterData (D : Type) where
  newDyn : D
  gc : ℚ
  gcErr : ℚ
  gw : ℚ
  gwErr : ℚ
  fe : ℚ
  feErr : ℚ
  kl : ℚ
  imFreq : Bool
deriving DecidableEq

/-- The mutable state of `SSCHA_Minimizer` touched by the run loop:
`self.dyn`, the matrix for which the ensemble weights were last recomputed
(`self.ensemble.update_weights(...)`), the convergence flag and the history
lists (most recent first). -/
structure MinState (D : Type) where
  dyn : D
  weightsDyn : D
  converged : Bool
  fe : List ℚ
  feErr : List ℚ
  gc : List ℚ
  gcErr : List ℚ
  gw : List ℚ
  gwErr : List ℚ
  KL : List ℚ
deriving DecidableEq

/-- `minimization_step` as seen by the run loop: append the gradient moduli
to the history, replace `self.dyn` by the stepped matrix, and update the
importance-sampling weights for it (`self.update()`). -/
def minimization_step {D : Type} (d : IterData D) (st : MinState D) : MinState D :=
  { st with
    gw := d.gw :: st.gw
    gwErr := d.gwErr :: st.gwErr
    gc := d.gc :: st.gc
    gcErr := d.gcErr :: st.gcErr
    dyn := d.newDyn
    weightsDyn := d.newDyn }

/-- The state after the non-breaking part of one loop iteration of `run`:
`minimization_step` followed by the free-energy and Kong-Liu appends
(lines 713-723). -/
def step_state {D : Type} (d : IterData D) (st : MinState D) : MinState D :=
  { minimization_step d st with
    fe := d.fe :: (minimization_step d st).fe
    feErr := d.feErr :: (minimization_step d st).feErr
    KL := d.kl :: (minimization_step d st).KL }

/-- `gc_cond = (last_gc < last_gc_err * self.meaningful_factor)`. -/
def gcCond {D : Type} (cfg : Config) (st : MinState D) : Bool :=
  decide (st.gc.headD 0 < st.gcErr.headD 0 * cfg.meaningful_factor)

/-- `gw_cond = (last_gw < last_gw_err * self.meaningful_factor)`. -/
def gwCond {D : Type} (cfg : Config) (st : MinState D) : Bool :=
  decide (st.gw.headD 0 < st.gwErr.headD 0 * cfg.meaningful_factor)

/-- `total_cond`, combined according to `self.gradi_op` (meaningful only for
the three recognized values). -/
def totalCond {D : Type} (cfg : Config) (st : MinState D) : Bool :=
  if cfg.gradi_op = "gc" then gcCond cfg st
  else if cfg.gradi_op = "gw" then gwCond cfg st
  else gcCond cfg st && gwCond cfg st

/-- `SSCHA_Minimizer.check_stop` (lines 897-961).  Returns the stop decision
and the updated state; an unrecognized `gradi_op` raises `ValueError`.  The
Kong-Liu size and the imaginary-frequency flag are recomputed for the
current (just stepped) matrix, hence come from the same `IterData`. -/
def check_stop {D : Type} (cfg : Config) (d : IterData D) (st : MinState D) :
    Except String (Bool × MinState D) :=
  if cfg.gradi_op = "gc" ∨ cfg.gradi_op = "gw" ∨ cfg.gradi_op = "all" then
    if totalCond cfg st then Except.ok (true, { st with converged := true })
    else if d.kl / cfg.N < cfg.kong_liu_ratio then
      Except.ok (true, { st with converged := false })
    else if d.imFreq then Except.ok (true, st)
    else Except.ok (false, st)
  else
    Except.error "Error, gradi_op must be one of gc, gw or all"

/-- One pass of the `while running:` body of `run` (lines 687-761): perform
the minimization step; if `check_imaginary_frequencies()` fires, `break`
(second component `false`, free energy and Kong-Liu not appended); otherwise
append them, evaluate `check_stop`, and apply the `max_ka` step budget.
Returns the updated state and whether the loop keeps running. -/
def iter_body {D : Type} (cfg : Config) (d : IterData D) (st : MinState D) :
    Except String (MinState D × Bool) :=
  if d.imFreq then Except.ok (minimization_step d st, false)
  else
    match check_stop cfg d (step_state d st) with
    | Except.error e => Except.error e
    | Except.ok (stop, st3) =>
        let running := !stop
        let running :=
          if (st3.fe.length : Int) > cfg.max_ka ∧ cfg.max_ka > 0 then false else running
        Except.ok (st3, running)

/-- The post-loop rollback of `run`: if the run did not stop for convergence,
restore the dynamical matrix saved at the top of the last loop iteration
(`self.dyn = old_dyn`) and recompute the importance-sampling weights for it
(`self.update()`); on convergence keep the state as is. -/
def restore {D : Type} (old : D) (st : MinState D) : MinState D :=
  if st.converged then st else { st with dyn := old, weightsDyn := old }

/-- The `while running:` loop of `run`, fuel-limited: `none` means the loop
was still running after `fuel` iterations; `some (Except.error e)` means a
python exception propagated out of the loop (in which case no rollback
happens); `some (Except.ok fin)` is normal termination including the
post-loop rollback.  `i` indexes the collaborator oracle. -/
def run_loop {D : Type} (cfg : Config) (env : ℕ → IterData D) :
    ℕ → ℕ → MinState D → Option (Except String (MinState D))
  | 0, _, _ => none
  | fuel + 1, i, st =>
      match iter_body cfg (env i) st with
      | Except.error e => some (Except.error e)
      | Except.ok (st', running) =>
          if running then run_loop cfg env fuel (i + 1) st'
          else some (Except.ok (restore st.dyn st'))

/-- The state at the top of the `k`-th loop iteration (counting the
iteration fed by `env i` as `k = 0`), assuming the loop ran that far; a
straight re-expression of the trace of `run_loop`. -/
def entry_state {D : Type} (cfg : Config) (env : ℕ → IterData D) :
    ℕ → MinState D → ℕ → MinState D
  | _, st, 0 => st
  | i, st, k + 1 =>
      match iter_body cfg (env i) st with
      | Except.ok (st', _) => entry_state cfg env (i + 1) st' k
      | Except.error _ => st

lemma restore_converged {D : Type} (old : D) (st : MinState D) :
    (restore old st).converged = st.converged := by
  unfold restore
  split <;> rfl

lemma restore_fe {D : Type} (old : D) (st : MinState D) :
    (restore old st).fe = st.fe := by
  unfold restore
  split <;> rfl

/-- **C5.** The convergence decision of `check_stop` is exactly
`gc_cond`/`gw_cond`/`gc_cond AND gw_cond` according to `gradi_op`; in
particular with `gradi_op = "all"` a state where only `gc_cond` holds is not
reported converged. -/
theorem check_stop_convergence_rule {D : Type} (cfg : Config) (d : IterData D)
    (st : MinState D)
    (hop : cfg.gradi_op = "gc" ∨ cfg.gradi_op = "gw" ∨ cfg.gradi_op = "all")
    (hconv : st.converged = false) :
    ∃ stop st', check_stop cfg d st = Except.ok (stop, st') ∧
      (st'.converged = true ↔ totalCond cfg st = true) ∧
      (cfg.gradi_op = "gc" → totalCond cfg st = gcCond cfg st) ∧
      (cfg.gradi_op = "gw" → totalCond cfg st = gwCond cfg st) ∧
      (cfg.gradi_op = "all" → totalCond cfg st = (gcCond cfg st && gwCond cfg st)) := by
  have hgc : cfg.gradi_op = "gc" → totalCond cfg st = gcCond cfg st := fun h => by
    simp [totalCond, h]
  have hgw : cfg.gradi_op = "gw" → totalCond cfg st = gwCond cfg st := fun h => by
    simp [totalCond, h]
  have hall : cfg.gradi_op = "all" → totalCond cfg st = (gcCond cfg st && gwCond cfg st) :=
    fun h => by simp [totalCond, h]
  unfold check_stop
  rw [if_pos hop]
  by_cases ht : totalCond cfg st = true
  · exact ⟨true, { st with converged := true }, by rw [if_pos ht], by simp [ht], hgc, hgw, hall⟩
  · rw [if_neg ht]
    by_cases hkl : d.kl / cfg.N < cfg.kong_liu_ratio
    · exact ⟨true, { st with converged := false }, by rw [if_pos hkl], by simp [ht],
        hgc, hgw, hall⟩
    · rw [if_neg hkl]
      by_cases him : d.imFreq = true
      · exact ⟨true, st, by rw [if_pos him], by simp [hconv, ht], hgc, hgw, hall⟩
      · exact ⟨false, st, by rw [if_neg him], by simp [hconv, ht], hgc, hgw, hall⟩

/-- Concrete configuration for the C5 witness: `gradi_op = "all"`. -/
def cfgW5 : Config := ⟨1, 1, "all", 10, 1⟩

/-- Concrete iteration data for the C5 witness. -/
def dW5 : IterData ℤ := ⟨0, 0, 0, 0, 0, 0, 0, 1, false⟩

/-- Concrete state for the C5 witness: `gc_cond` holds (`0 < 1*1`) but
`gw_cond` fails (`1 < 0*1` is false). -/
def stW5 : MinState ℤ := ⟨0, 0, false, [], [], [0], [1], [1], [0], []⟩

/-- Witness for C5: `gradi_op = "all"` with `gc_cond` true but `gw_cond`
false is not reported converged. -/
theorem check_stop_convergence_rule_witness :
    (cfgW5.gradi_op = "gc" ∨ cfgW5.gradi_op = "gw" ∨ cfgW5.gradi_op = "all") ∧
      stW5.converged = false ∧
      (∃ stop st', check_stop cfgW5 dW5 stW5 = Except.ok (stop, st') ∧
        (st'.converged = true ↔ totalCond cfgW5 stW5 = true) ∧
        (cfgW5.gradi_op = "gc" → totalCond cfgW5 stW5 = gcCond cfgW5 stW5) ∧
        (cfgW5.gradi_op = "gw" → totalCond cfgW5 stW5 = gwCond cfgW5 stW5) ∧
        (cfgW5.gradi_op = "all" →
          totalCond cfgW5 stW5 = (gcCond cfgW5 stW5 && gwCond cfgW5 stW5))) :=
  ⟨Or.inr (Or.inr rfl), rfl,
    check_stop_convergence_rule cfgW5 dW5 stW5 (Or.inr (Or.inr rfl)) rfl⟩

/-- **C6.** Statistical exhaustion and imaginary frequencies are terminal
states, not exceptions: (1) when the effective sample size over the sample
count falls strictly below `kong_liu_ratio` and the gradient convergence
condition does not hold, `check_stop` returns `True` normally (no exception)
with the converged flag `False`; (2) an imaginary frequency detected after a
step makes the run loop terminate normally (`Except.ok`, no exception),
restoring the pre-step matrix. -/
theorem sampling_and_imaginary_are_terminal {D : Type} (cfg : Config)
    (d : IterData D) (st : MinState D) (env : ℕ → IterData D) (fuel i : ℕ)
    (hop : cfg.gradi_op = "gc" ∨ cfg.gradi_op = "gw" ∨ cfg.gradi_op = "all") :
    (totalCond cfg st = false → d.kl / cfg.N < cfg.kong_liu_ratio →
      check_stop cfg d st = Except.ok (true, { st with converged := false })) ∧
    ((env i).imFreq = true → st.converged = false →
      run_loop cfg env (fuel + 1) i st =
          some (Except.ok (restore st.dyn (minimization_step (env i) st))) ∧
        (restore st.dyn (minimization_step (env i) st)).converged = false) := by
  constructor
  · intro ht hkl
    unfold check_stop
    rw [if_pos hop, if_neg (by simp [ht]), if_pos hkl]
  · intro him hconv
    have hb : iter_body cfg (env i) st =
        Except.ok (minimization_step (env i) st, false) := by
      unfold iter_body
      rw [if_pos him]
    constructor
    · show run_loop cfg env (fuel + 1) i st = _
      simp only [run_loop]
      rw [hb]
      rfl
    · rw [restore_converged]
      exact hconv

/-- Concrete configuration for the C6 witness. -/
def cfgW6 : Config := ⟨1, 1, "gc", 10, 1⟩

/-- Concrete iteration data for the C6 witness: sampling exhausted
(`kl/N = 0 < 1`), imaginary frequency present. -/
def dW6 : IterData ℤ := ⟨0, 1, 0, 1, 0, 0, 0, 0, true⟩

/-- Concrete state for the C6 witness (gradient conditions fail). -/
def stW6 : MinState ℤ := ⟨5, 5, false, [], [], [1], [0], [1], [0], []⟩

/-- Witness for C6 at concrete inputs. -/
theorem sampling_and_imaginary_are_terminal_witness :
    check_stop cfgW6 dW6 stW6 = Except.ok (true, { stW6 with converged := false }) ∧
      run_loop cfgW6 (fun _ => dW6) 1 0 stW6 =
          some (Except.ok (restore stW6.dyn (minimization_step dW6 stW6))) ∧
        (restore stW6.dyn (minimization_step dW6 stW6)).converged = false :=
  ⟨(sampling_and_imaginary_are_terminal cfgW6 dW6 stW6 (fun _ => dW6) 0 0
      (Or.inl rfl)).1
      (by simp [totalCond, gcCond, gwCond, cfgW6, stW6])
      (by norm_num [dW6, cfgW6]),
    (sampling_and_imaginary_are_terminal cfgW6 dW6 stW6 (fun _ => dW6) 0 0
      (Or.inl rfl)).2 rfl rfl⟩

lemma check_stop_no_stop {D : Type} (cfg : Config) (d : IterData D) (st : MinState D)
    (hop : cfg.gradi_op = "gc" ∨ cfg.gradi_op = "gw" ∨ cfg.gradi_op = "all")
    (hgc : ¬(d.gc < d.gcErr * cfg.meaningful_factor))
    (hgw : ¬(d.gw < d.gwErr * cfg.meaningful_factor))
    (hkl : ¬(d.kl / cfg.N < cfg.kong_liu_ratio))
    (him : d.imFreq = false) :
    check_stop cfg d (step_state d st) = Except.ok (false, step_state d st) := by
  have htc : totalCond cfg (step_state d st) = false := by
    unfold totalCond gcCond gwCond step_state minimization_step
    split_ifs <;> simp [hgc, hgw]
  unfold check_stop
  rw [if_pos hop, if_neg (by simp [htc]), if_neg hkl, if_neg (by simp [him])]

lemma iter_body_no_stop {D : Type} (cfg : Config) (d : IterData D) (st : MinState D)
    (hop : cfg.gradi_op = "gc" ∨ cfg.gradi_op = "gw" ∨ cfg.gradi_op = "all")
    (hgc : ¬(d.gc < d.gcErr * cfg.meaningful_factor))
    (hgw : ¬(d.gw < d.gwErr * cfg.meaningful_factor))
    (hkl : ¬(d.kl / cfg.N < cfg.kong_liu_ratio))
    (him : d.imFreq = false) :
    iter_body cfg d st = Except.ok (step_state d st,
      if ((step_state d st).fe.length : Int) > cfg.max_ka ∧ cfg.max_ka > 0 then false
      else true) := by
  unfold iter_body
  rw [if_neg (by simp [him]), check_stop_no_stop cfg d st hop hgc hgw hkl him]
  rfl

/-- Under never-firing stopping conditions and a positive step budget, the
run loop terminates normally with exactly `max_ka + 1` free-energy entries
(one per iteration plus those already in the history), unconverged. -/
lemma run_loop_counts {D : Type} (cfg : Config) (env : ℕ → IterData D)
    (hop : cfg.gradi_op = "gc" ∨ cfg.gradi_op = "gw" ∨ cfg.gradi_op = "all")
    (hnostop : ∀ j, ¬((env j).gc < (env j).gcErr * cfg.meaningful_factor) ∧
      ¬((env j).gw < (env j).gwErr * cfg.meaningful_factor) ∧
      ¬((env j).kl / cfg.N < cfg.kong_liu_ratio) ∧ (env j).imFreq = false)
    (hpos : cfg.max_ka > 0) :
    ∀ (fuel i : ℕ) (st : MinState D), st.converged = false →
      (st.fe.length : Int) ≤ cfg.max_ka →
      cfg.max_ka < (st.fe.length : Int) + fuel →
      ∃ fin, run_loop cfg env fuel i st = some (Except.ok fin) ∧
        (fin.fe.length : Int) = cfg.max_ka + 1 ∧ fin.converged = false
  | 0, i, st, _, hle, hlt => by omega
  | fuel + 1, i, st, hconv, hle, hlt => by
    obtain ⟨hgc, hgw, hkl, him⟩ := hnostop i
    have hb := iter_body_no_stop cfg (env i) st hop hgc hgw hkl him
    have hlen : (step_state (env i) st).fe.length = st.fe.length + 1 := rfl
    have hcv : (step_state (env i) st).converged = st.converged := rfl
    by_cases hbud : ((step_state (env i) st).fe.length : Int) > cfg.max_ka ∧ cfg.max_ka > 0
    · refine ⟨restore st.dyn (step_state (env i) st), ?_, ?_, ?_⟩
      · simp only [run_loop]
        rw [hb, if_pos hbud]
        rfl
      · rw [restore_fe]
        omega
      · rw [restore_converged, hcv, hconv]
    · obtain ⟨fin, hrun, hfe, hconv'⟩ :=
        run_loop_counts cfg env hop hnostop hpos fuel (i + 1) (step_state (env i) st)
          (hcv.trans hconv) (by omega) (by omega)
      refine ⟨fin, ?_, hfe, hconv'⟩
      simp only [run_loop]
      rw [hb, if_neg hbud]
      simpa using hrun

/-- Under never-firing stopping conditions and a negative step budget, the
run loop never terminates: no amount of fuel makes it return. -/
lemma run_loop_unbounded {D : Type} (cfg : Config) (env : ℕ → IterData D)
    (hop : cfg.gradi_op = "gc" ∨ cfg.gradi_op = "gw" ∨ cfg.gradi_op = "all")
    (hnostop : ∀ j, ¬((env j).gc < (env j).gcErr * cfg.meaningful_factor) ∧
      ¬((env j).gw < (env j).gwErr * cfg.meaningful_factor) ∧
      ¬((env j).kl / cfg.N < cfg.kong_liu_ratio) ∧ (env j).imFreq = false)
    (hneg : cfg.max_ka < 0) :
    ∀ (fuel i : ℕ) (st : MinState D), run_loop cfg env fuel i st = none
  | 0, _, _ => rfl
  | fuel + 1, i, st => by
    obtain ⟨hgc, hgw, hkl, him⟩ := hnostop i
    have hb := iter_body_no_stop cfg (env i) st hop hgc hgw hkl him
    have hbud : ¬(((step_state (env i) st).fe.length : Int) > cfg.max_ka ∧
        cfg.max_ka > 0) := by omega
    simp only [run_loop]
    rw [hb, if_neg hbud]
    simpa using run_loop_unbounded cfg env hop hnostop hneg fuel (i + 1)
      (step_state (env i) st)

/-- **C7.** With `max_ka = 3` and no other stopping condition ever firing,
the run loop performs exactly 3 iterations (the free-energy history grows
from its single `init` entry to 4 entries) and terminates on the step-budget
check without the converged flag; with a negative `max_ka` the step budget
never terminates the loop, whatever the fuel. -/
theorem run_loop_max_ka_budget {D : Type} (cfg : Config) (env : ℕ → IterData D)
    (st : MinState D) (n : ℕ)
    (hop : cfg.gradi_op = "gc" ∨ cfg.gradi_op = "gw" ∨ cfg.gradi_op = "all")
    (hnostop : ∀ j, ¬((env j).gc < (env j).gcErr * cfg.meaningful_factor) ∧
      ¬((env j).gw < (env j).gwErr * cfg.meaningful_factor) ∧
      ¬((env j).kl / cfg.N < cfg.kong_liu_ratio) ∧ (env j).imFreq = false)
    (hconv : st.converged = false) :
    (cfg.max_ka = 3 → st.fe.length = 1 →
      ∃ fin, run_loop cfg env (n + 3) 0 st = some (Except.ok fin) ∧
        fin.fe.length = 4 ∧ fin.converged = false) ∧
    (cfg.max_ka < 0 → run_loop cfg env n 0 st = none) := by
  constructor
  · intro hmax hfe
    obtain ⟨fin, hrun, hlen, hc⟩ :=
      run_loop_counts cfg env hop hnostop (by omega) (n + 3) 0 st hconv
        (by omega) (by omega)
    exact ⟨fin, hrun, by omega, hc⟩
  · intro hneg
    exact run_loop_unbounded cfg env hop hnostop hneg n 0 st

/-- Concrete configuration for the C7 witness, `max_ka = 3`. -/
def cfgW7 : Config := ⟨1, 0, "gc", 3, 1⟩

/-- Concrete configuration for the C7 witness, unbounded (`max_ka = -1`). -/
def cfgW7neg : Config := ⟨1, 0, "gc", -1, 1⟩

/-- Concrete iteration data for the C7 witness: nothing ever stops. -/
def dW7 : IterData ℤ := ⟨0, 1, 0, 1, 0, 0, 0, 1, false⟩

/-- Concrete state for the C7 witness: one `init` free-energy entry. -/
def stW7 : MinState ℤ := ⟨0, 0, false, [0], [0], [], [], [], [], []⟩

/-- Witness for C7: exactly 3 iterations with `max_ka = 3` and fuel 3, and
no termination with `max_ka = -1` and fuel 5. -/
theorem run_loop_max_ka_budget_witness :
    (∃ fin, run_loop cfgW7 (fun _ => dW7) 3 0 stW7 = some (Except.ok fin) ∧
        fin.fe.length = 4 ∧ fin.converged = false) ∧
      run_loop cfgW7neg (fun _ => dW7) 5 0 stW7 = none :=
  ⟨(run_loop_max_ka_budget cfgW7 (fun _ => dW7) stW7 0 (Or.inl rfl)
      (fun _ => ⟨by norm_num [dW7, cfgW7], by norm_num [dW7, cfgW7],
        by norm_num [dW7, cfgW7], rfl⟩) rfl).1 rfl rfl,
    (run_loop_max_ka_budget cfgW7neg (fun _ => dW7) stW7 5 (Or.inl rfl)
      (fun _ => ⟨by norm_num [dW7, cfgW7neg], by norm_num [dW7, cfgW7neg],
        by norm_num [dW7, cfgW7neg], rfl⟩) rfl).2 (by norm_num [cfgW7neg])⟩

lemma check_stop_fields {D : Type} (cfg : Config) (d : IterData D)
    (st st' : MinState D) (b : Bool)
    (h : check_stop cfg d st = Except.ok (b, st')) :
    st'.dyn = st.dyn ∧ st'.weightsDyn = st.weightsDyn := by
  unfold check_stop at h
  split_ifs at h <;>
    · injection h with hp
      injection hp with h1 h2
      subst h2
      exact ⟨rfl, rfl⟩

lemma iter_body_dyn {D : Type} (cfg : Config) (d : IterData D)
    (st st' : MinState D) (keep : Bool)
    (h : iter_body cfg d st = Except.ok (st', keep)) :
    st'.dyn = d.newDyn ∧ st'.weightsDyn = d.newDyn := by
  unfold iter_body at h
  by_cases him : d.imFreq = true
  · rw [if_pos him] at h
    injection h with hp
    injection hp with h1 h2
    subst h1
    exact ⟨rfl, rfl⟩
  · rw [if_neg him] at h
    revert h
    cases hcs : check_stop cfg d (step_state d st) with
    | error e =>
        intro h
        cases h
    | ok p =>
        obtain ⟨stop, st3⟩ := p
        intro h
        injection h with hp
        injection hp with h1 h2
        subst h1
        obtain ⟨h1, h2⟩ := check_stop_fields _ _ _ _ _ hcs
        exact ⟨h1, h2⟩

/-- **C1.** Whenever the run loop terminates normally, there is a last
(`k`-th) iteration after which it stopped; if it stopped without the
convergence flag set, the final dynamical matrix is the copy taken at the
start of that just-completed (rejected) iteration, and the
importance-sampling weights were recomputed (`update_weights`) for that
restored matrix; if it stopped converged, the final state is exactly the
post-step state of the last iteration, whose matrix is the freshly updated
one, kept unchanged. -/
theorem run_loop_restores_on_non_convergence {D : Type} (cfg : Config)
    (env : ℕ → IterData D) :
    ∀ (fuel i : ℕ) (st fin : MinState D),
      run_loop cfg env fuel i st = some (Except.ok fin) →
      ∃ k st' keep, k < fuel ∧
        iter_body cfg (env (i + k)) (entry_state cfg env i st k) =
          Except.ok (st', keep) ∧
        keep = false ∧
        fin = restore (entry_state cfg env i st k).dyn st' ∧
        st'.dyn = (env (i + k)).newDyn ∧
        (fin.converged = false →
          fin.dyn = (entry_state cfg env i st k).dyn ∧
          fin.weightsDyn = (entry_state cfg env i st k).dyn) ∧
        (fin.converged = true → fin = st')
  | 0, i, st, fin, h => by cases h
  | fuel + 1, i, st, fin, h => by
    rw [run_loop] at h
    revert h
    cases hb : iter_body cfg (env i) st with
    | error e =>
        intro h
        cases h
    | ok p =>
        obtain ⟨st', keep⟩ := p
        intro h
        dsimp only at h
        by_cases hk : keep = true
        · subst hk
          rw [if_pos rfl] at h
          obtain ⟨k, st'', keep', hklt, hbody, hkeep, hfin, hdyn, hc1, hc2⟩ :=
            run_loop_restores_on_non_convergence cfg env fuel (i + 1) st' fin h
          have he : entry_state cfg env i st (k + 1) =
              entry_state cfg env (i + 1) st' k := by
            simp only [entry_state]
            rw [hb]
          have hi : i + (k + 1) = i + 1 + k := by omega
          refine ⟨k + 1, st'', keep', by omega, ?_, hkeep, ?_, ?_, ?_, hc2⟩
          · rw [he, hi]
            exact hbody
          · rw [he]
            exact hfin
          · rw [hi]
            exact hdyn
          · rw [he]
            exact hc1
        · have hkf : keep = false := by
            cases keep
            · rfl
            · exact absurd rfl hk
          subst hkf
          rw [if_neg (by simp)] at h
          have hfin : fin = restore st.dyn st' :=
            (Except.ok.inj (Option.some.inj h)).symm
          obtain ⟨hd1, hd2⟩ := iter_body_dyn cfg (env i) st st' false hb
          refine ⟨0, st', false, by omega, ?_, rfl, hfin, ?_, ?_, ?_⟩
          · show iter_body cfg (env (i + 0)) st = Except.ok (st', false)
            rw [Nat.add_zero]
            exact hb
          · show st'.dyn = (env (i + 0)).newDyn
            rw [Nat.add_zero]
            exact hd1
          · intro hcf
            have hcv : st'.converged = false := by
              rw [hfin, restore_converged] at hcf
              exact hcf
            rw [hfin]
            unfold restore
            rw [if_neg (by simp [hcv])]
            exact ⟨rfl, rfl⟩
          · intro hcf
            have hcv : st'.converged = true := by
              rw [hfin, restore_converged] at hcf
              exact hcf
            rw [hfin]
            unfold restore
            rw [if_pos hcv]

/-- Concrete configuration for the C1 witness (`max_ka = 1`). -/
def cfgW1 : Config := ⟨1, 0, "gc", 1, 1⟩

/-- Concrete iteration data for the C1 witness: the step moves the matrix
from `1` to `2`; after the single allowed iteration the budget stops the run
unconverged, so the matrix must be rolled back to `1`. -/
def dW1 : IterData ℤ := ⟨2, 1, 0, 1, 0, 0, 0, 1, false⟩

/-- Concrete initial state for the C1 witness. -/
def stW1 : MinState ℤ := ⟨1, 1, false, [0], [0], [], [], [], [], []⟩

/-- Witness for C1 at a concrete run. -/
theorem run_loop_restores_on_non_convergence_witness :
    ∃ fin, run_loop cfgW1 (fun _ => dW1) 1 0 stW1 = some (Except.ok fin) ∧
      ∃ k st' keep, k < 1 ∧
        iter_body cfgW1 ((fun _ => dW1) (0 + k))
            (entry_state cfgW1 (fun _ => dW1) 0 stW1 k) = Except.ok (st', keep) ∧
        keep = false ∧
        fin = restore (entry_state cfgW1 (fun _ => dW1) 0 stW1 k).dyn st' ∧
        st'.dyn = ((fun _ => dW1) (0 + k)).newDyn ∧
        (fin.converged = false →
          fin.dyn = (entry_state cfgW1 (fun _ => dW1) 0 stW1 k).dyn ∧
          fin.weightsDyn = (entry_state cfgW1 (fun _ => dW1) 0 stW1 k).dyn) ∧
        (fin.converged = true → fin = st') := by
  obtain ⟨fin, hrun, _, _⟩ :=
    run_loop_counts cfgW1 (fun _ => dW1) (Or.inl rfl)
      (fun _ => ⟨by norm_num [dW1, cfgW1], by norm_num [dW1, cfgW1],
        by norm_num [dW1, cfgW1], rfl⟩)
      (by norm_num [cfgW1]) 1 0 stW1 rfl (by norm_num [cfgW1, stW1])
      (by norm_num [cfgW1, stW1])
  exact ⟨fin, hrun,
    run_loop_restores_on_non_convergence cfgW1 (fun _ => dW1) 1 0 stW1 fin hrun⟩

/-! ## The structure gradient of `minimization_step` (claim C4)

Lines 239-278 of the source.  `struct_grad, struct_grad_err =
self.ensemble.get_average_forces(True)` and `struct_grad_reshaped =
-struct_grad.reshape(3*N)`; but the negated, flattened vector is only ever
used inside the `if self.precond_wyck:` branch — when the structure
preconditioner is disabled the *raw* (un-negated) forces remain in
`struct_grad` and feed `self.dyn.structure.coords -= self.min_step_struc *
struct_grad`. -/

/-- `-struct_grad.reshape(3 * N)`: the negated forces flattened row-major
(`k`-th entry is `-f[k // 3][k % 3]`). -/
def struct_grad_reshaped {N : ℕ} (f : Fin N → Fin 3 → ℚ) : Fin (3 * N) → ℚ :=
  fun k => - f ⟨k.val / 3, by omega⟩ ⟨k.val % 3, by omega⟩

/-- Row-major index `(i, j) ↦ 3*i + j` used by `reshape((N, 3))`. -/
def packIdx {N : ℕ} (i : Fin N) (j : Fin 3) : Fin (3 * N) :=
  ⟨3 * i.val + j.val, by omega⟩

/-- The structure gradient that `minimization_step` feeds into
`coords -= self.min_step_struc * struct_grad`, as a function of the average
forces `f` returned by the ensemble: with `precond_wyck` the preconditioner
is applied to the negated flattened forces and reshaped back; without it the
variable `struct_grad` is never reassigned, so the raw forces are used.  The
symmetry collaborator's `SymmetrizeVector` is the oracle `symV` (skipped when
`neglect_symmetries`). -/
def structGradUsed {N : ℕ} (precond_wyck neglect_symmetries : Bool)
    (P : Matrix (Fin (3 * N)) (Fin (3 * N)) ℚ)
    (symV : (Fin N → Fin 3 → ℚ) → (Fin N → Fin 3 → ℚ))
    (f : Fin N → Fin 3 → ℚ) : Fin N → Fin 3 → ℚ :=
  let reshaped := struct_grad_reshaped f
  let g := if precond_wyck then
      (fun i j => ∑ l, P (packIdx i j) l * reshaped l)
    else f
  if neglect_symmetries then g else symV g

/-- **C4 (code bug).** With the structure preconditioner disabled the
negation of the average forces is dropped: the gradient used in the position
update is the raw force array `f`, not `-f` — shown here at the concrete
input `f = 1` (one atom, unit forces, symmetries neglected).  With the
preconditioner enabled (identity preconditioner) the negation is applied, as
the claim and the spec describe for both branches. -/
theorem structGrad_negation_dropped_without_precond :
    structGradUsed false true (1 : Matrix (Fin (3 * 1)) (Fin (3 * 1)) ℚ) id
        (fun _ _ => (1 : ℚ)) = (fun _ _ => (1 : ℚ)) ∧
      (fun (_ : Fin 1) (_ : Fin 3) => (1 : ℚ)) ≠ (fun _ _ => -(1 : ℚ)) ∧
      structGradUsed true true (1 : Matrix (Fin (3 * 1)) (Fin (3 * 1)) ℚ) id
        (fun _ _ => (1 : ℚ)) = (fun _ _ => -(1 : ℚ)) := by
  refine ⟨rfl, ?_, ?_⟩
  · intro h
    have := congrFun (congrFun h 0) 0
    norm_num at this
  · funext i j
    show (∑ l, (1 : Matrix (Fin (3 * 1)) (Fin (3 * 1)) ℚ) (packIdx i j) l *
        struct_grad_reshaped (fun _ _ => (1 : ℚ)) l) = -1
    simp [Matrix.one_apply, ite_mul, struct_grad_reshaped]

/-! ## The structure preconditioner (claim C9)

`GetStructPrecond(current_dyn)` (lines 1337-1390).  The zone-center
diagonalization `(w, pols)` and the translation mask are collaborator
outputs, supplied as arguments; `pols` is real (the code takes `np.real`).
`notTrans` is the index set kept after discarding the translational modes,
and `bohr` is `CC.Phonons.BOHR_TO_ANGSTROM`. -/

/-- `precond = einsum("a,b,c,ac,bc -> ab", _msi_, _msi_, wm2, pols, pols)`
with `_msi_ = 1/sqrt(_m_)` and `wm2 = 1/w**2`, restricted to the
non-translational modes, times `BOHR_TO_ANGSTROM**2`. -/
noncomputable def GetStructPrecond {d m : ℕ} (bohr : ℝ) (mass : Fin d → ℝ)
    (w : Fin m → ℝ) (notTrans : Finset (Fin m)) (pols : Fin d → Fin m → ℝ) :
    Matrix (Fin d) (Fin d) ℝ :=
  Matrix.of fun a b =>
    (∑ c ∈ notTrans, (1 / Real.sqrt (mass a)) * (1 / Real.sqrt (mass b)) *
      (1 / w c ^ 2) * pols a c * pols b c) * bohr ^ 2

/-- **C9.** For a dynamical matrix with exactly 3 zero-frequency
(translational) directions — so that every mode surviving the translation
mask has nonzero frequency — the matrix returned by `GetStructPrecond` is
symmetric and positive semi-definite (its quadratic form is a sum of
squares with nonnegative coefficients). -/
theorem structPrecond_symmetric_psd {d m : ℕ} (bohr : ℝ) (mass : Fin d → ℝ)
    (w : Fin m → ℝ) (notTrans : Finset (Fin m)) (pols : Fin d → Fin m → ℝ)
    (hw : ∀ c ∈ notTrans, w c ≠ 0) :
    (∀ a b, GetStructPrecond bohr mass w notTrans pols a b =
      GetStructPrecond bohr mass w notTrans pols b a) ∧
    (∀ x : Fin d → ℝ,
      0 ≤ ∑ a, ∑ b, x a * GetStructPrecond bohr mass w notTrans pols a b * x b) := by
  constructor
  · intro a b
    simp only [GetStructPrecond, Matrix.of_apply]
    refine congrArg (· * bohr ^ 2) (Finset.sum_congr rfl fun c _ => by ring)
  · intro x
    have key : (∑ a, ∑ b, x a * GetStructPrecond bohr mass w notTrans pols a b * x b) =
        ∑ c ∈ notTrans, ((1 / w c ^ 2) * bohr ^ 2) *
          ((∑ a, x a * (1 / Real.sqrt (mass a)) * pols a c) *
            (∑ b, x b * (1 / Real.sqrt (mass b)) * pols b c)) := by
      simp only [GetStructPrecond, Matrix.of_apply]
      calc ∑ a, ∑ b, x a * ((∑ c ∈ notTrans,
              (1 / Real.sqrt (mass a)) * (1 / Real.sqrt (mass b)) *
                (1 / w c ^ 2) * pols a c * pols b c) * bohr ^ 2) * x b
          = ∑ a, ∑ b, ∑ c ∈ notTrans,
              ((1 / w c ^ 2) * bohr ^ 2) *
                ((x a * (1 / Real.sqrt (mass a)) * pols a c) *
                  (x b * (1 / Real.sqrt (mass b)) * pols b c)) := by
            refine Finset.sum_congr rfl fun a _ => Finset.sum_congr rfl fun b _ => ?_
            rw [Finset.sum_mul, Finset.mul_sum, Finset.sum_mul]
            exact Finset.sum_congr rfl fun c _ => by ring
        _ = ∑ c ∈ notTrans, ∑ a, ∑ b,
              ((1 / w c ^ 2) * bohr ^ 2) *
                ((x a * (1 / Real.sqrt (mass a)) * pols a c) *
                  (x b * (1 / Real.sqrt (mass b)) * pols b c)) := by
            exact (Finset.sum_congr rfl fun a _ => Finset.sum_comm).trans Finset.sum_comm
        _ = ∑ c ∈ notTrans, ((1 / w c ^ 2) * bohr ^ 2) *
              ((∑ a, x a * (1 / Real.sqrt (mass a)) * pols a c) *
                (∑ b, x b * (1 / Real.sqrt (mass b)) * pols b c)) := by
            refine Finset.sum_congr rfl fun c _ => ?_
            rw [Finset.sum_mul_sum, Finset.mul_sum]
            exact Finset.sum_congr rfl fun a _ => (Finset.mul_sum _ _ _).symm
    rw [key]
    refine Finset.sum_nonneg fun c _ => ?_
    exact mul_nonneg (by positivity) (mul_self_nonneg _)

/-- Witness for C9 at concrete collaborator data: one non-translational mode
of unit frequency, unit masses, unit polarization vectors. -/
theorem structPrecond_symmetric_psd_witness :
    (∀ c ∈ ({0} : Finset (Fin 3)), (fun _ => (1 : ℝ)) c ≠ 0) ∧
      ((∀ a b, GetStructPrecond 1 (fun _ => (1 : ℝ)) (fun _ => (1 : ℝ))
          ({0} : Finset (Fin 3)) (fun (_ : Fin 3) _ => (1 : ℝ)) a b =
        GetStructPrecond 1 (fun _ => (1 : ℝ)) (fun _ => (1 : ℝ))
          ({0} : Finset (Fin 3)) (fun _ _ => (1 : ℝ)) b a) ∧
      (∀ x : Fin 3 → ℝ,
        0 ≤ ∑ a, ∑ b, x a * GetStructPrecond 1 (fun _ => (1 : ℝ)) (fun _ => (1 : ℝ))
          ({0} : Finset (Fin 3)) (fun _ _ => (1 : ℝ)) a b * x b)) :=
  ⟨fun _ _ => one_ne_zero,
    structPrecond_symmetric_psd 1 (fun _ => (1 : ℝ)) (fun _ => (1 : ℝ))
      ({0} : Finset (Fin 3)) (fun _ _ => (1 : ℝ)) (fun _ _ => one_ne_zero)⟩

/-! ## Initialization (claim C10)

`SSCHA_Minimizer.init` (lines 570-638).  The collaborator calls
(symmetrizing the starting matrix, the imaginary-frequency report, the free
energy, the initial gradient, the Kong-Liu size, `GetBestWykoffStep`) have
no control-flow effect; the only `raise` is the compatibility check between
`root_representation` and `precond_dyn`.  An error discards the state. -/

/-- The minimizer fields set up by `init`. -/
structure InitState where
  fe : List ℚ
  feErr : List ℚ
  KL : List ℚ
  min_step_struc : ℚ
  converged : Bool
deriving DecidableEq

/-- `init`: reset the histories and the convergence flag, record the initial
free energy (minus `eq_energy`), then raise `ValueError` if a root
representation is combined with dynamical-matrix preconditioning; otherwise
record the Kong-Liu size and rescale the structure step by the best Wyckoff
step when the structure preconditioner is off. -/
def init (root_representation : String) (precond_dyn precond_wyck : Bool)
    (fe0 feErr0 eq_energy kl0 min_step_struc best_wyck : ℚ) :
    Except String InitState :=
  if root_representation ≠ "normal" ∧ precond_dyn = true then
    Except.error "Error, deactivate the preconditioning if a root_representation is used."
  else
    Except.ok
      { fe := [fe0 - eq_energy]
        feErr := [feErr0]
        KL := [kl0]
        min_step_struc := if precond_wyck then min_step_struc
          else min_step_struc * best_wyck
        converged := false }

/-- **C10.** `init` raises a `ValueError` exactly when `root_representation`
is not `"normal"` while `precond_dyn` is enabled: a root representation can
only ever run with the dynamical-matrix preconditioning disabled. -/
theorem init_rejects_root_representation_with_precond
    (root_representation : String) (precond_dyn precond_wyck : Bool)
    (fe0 feErr0 eq_energy kl0 min_step_struc best_wyck : ℚ) :
    (∃ e, init root_representation precond_dyn precond_wyck
        fe0 feErr0 eq_energy kl0 min_step_struc best_wyck = Except.error e) ↔
      (root_representation ≠ "normal" ∧ precond_dyn = true) := by
  unfold init
  split_ifs with h
  · simpa using h
  · simpa using h

end Sscha
